import Mathlib

/-!
Verification development for the DeltaLake metadata parser
(src/Storages/DataLakes/DeltaLakeMetadataParser.cpp).

The development shallowly embeds the parser's data model and operations:
the internal data-type handles produced by type resolution, the literal
partition-value conversion, the per-object action application of
processMetadataFile, the version scan of processMetadataFiles, and the
checkpoint path insertion of getCheckpointIfExists.  External helpers that
are not part of the repository file (IO/ReadHelpers.h parsing helpers,
base/LocalDate.h, std::filesystem path append) are modelled from the
specification and marked as such in their doc comments.
-/

deriving instance DecidableEq for Except

namespace DeltaLake

/-- Error kinds of the parse, following the error taxonomy of the parser:
INCORRECT_DATA, LOGICAL_ERROR, BAD_ARGUMENTS, NOT_IMPLEMENTED.  Parse
failures of the low-level read helpers (assertChar, readIntText, parse<T>)
are mapped to the BadArguments kind. -/
inductive Err where
  | incorrectData
  | logicalError
  | badArguments
  | notImplemented
deriving DecidableEq, Repr

/-- Internal data-type handles, covering exactly the types this parser can
produce: getSimpleTypeByName yields str (string/binary), int64 (long),
int32 (integer), int16 (short), int8 (byte), float32, float64, boolType
(DataTypeFactory "Bool"), date32 (date), dateTime64 6 (timestamp) and
decimal p s; getComplexTypeFromObject yields tuple, arr and tmap; makeNullable
wraps in nullable.  Unsigned integer types, Date and FixedString exist in the
engine but are unreachable from this parser, so they are not modelled. -/
inductive DType where
  | str
  | int8
  | int16
  | int32
  | int64
  | float32
  | float64
  | boolType
  | date32
  | dateTime64 (scale : Nat)
  | decimal (precision scale : Nat)
  | nullable (nested : DType)
  | tuple (fields : List (String × DType))
  | arr (element : DType)
  | tmap (key value : DType)

mutual

/-- Structural boolean equality on DType (the engine compares data types;
needed because the schema comparison in processMetadataFile compares
NamesAndTypesList values). -/
def DType.beq : DType → DType → Bool
  | .str, .str => true
  | .int8, .int8 => true
  | .int16, .int16 => true
  | .int32, .int32 => true
  | .int64, .int64 => true
  | .float32, .float32 => true
  | .float64, .float64 => true
  | .boolType, .boolType => true
  | .date32, .date32 => true
  | .dateTime64 a, .dateTime64 b => a == b
  | .decimal p s, .decimal q t => p == q && s == t
  | .nullable a, .nullable b => DType.beq a b
  | .tuple xs, .tuple ys => DType.beqFields xs ys
  | .arr a, .arr b => DType.beq a b
  | .tmap k v, .tmap l w => DType.beq k l && DType.beq v w
  | _, _ => false

/-- Boolean equality on named field lists of a tuple type. -/
def DType.beqFields : List (String × DType) → List (String × DType) → Bool
  | [], [] => true
  | (n, t) :: xs, (m, u) :: ys => n == m && DType.beq t u && DType.beqFields xs ys
  | _ :: _, [] => false
  | [], _ :: _ => false

end

mutual

theorem DType.beq_iff : ∀ a b : DType, DType.beq a b = true ↔ a = b
  | .str, b => by cases b <;> simp [DType.beq]
  | .int8, b => by cases b <;> simp [DType.beq]
  | .int16, b => by cases b <;> simp [DType.beq]
  | .int32, b => by cases b <;> simp [DType.beq]
  | .int64, b => by cases b <;> simp [DType.beq]
  | .float32, b => by cases b <;> simp [DType.beq]
  | .float64, b => by cases b <;> simp [DType.beq]
  | .boolType, b => by cases b <;> simp [DType.beq]
  | .date32, b => by cases b <;> simp [DType.beq]
  | .dateTime64 a, b => by cases b <;> simp [DType.beq]
  | .decimal p s, b => by cases b <;> simp [DType.beq]
  | .nullable a, b => by
      cases b <;> simp [DType.beq]
      exact DType.beq_iff a _
  | .tuple xs, b => by
      cases b <;> simp [DType.beq]
      exact DType.beqFields_iff xs _
  | .arr a, b => by
      cases b <;> simp [DType.beq]
      exact DType.beq_iff a _
  | .tmap k v, b => by
      cases b <;> simp [DType.beq]
      rw [DType.beq_iff k _, DType.beq_iff v _]

theorem DType.beqFields_iff : ∀ xs ys : List (String × DType),
    DType.beqFields xs ys = true ↔ xs = ys
  | [], ys => by cases ys <;> simp [DType.beqFields]
  | (n, t) :: xs, ys => by
      cases ys with
      | nil => simp [DType.beqFields]
      | cons p ys =>
        obtain ⟨m, u⟩ := p
        simp only [DType.beqFields, Bool.and_eq_true, beq_iff_eq, List.cons.injEq,
          Prod.mk.injEq]
        constructor
        · rintro ⟨⟨h1, h2⟩, h3⟩
          exact ⟨⟨h1, (DType.beq_iff t u).1 h2⟩, (DType.beqFields_iff xs ys).1 h3⟩
        · rintro ⟨⟨h1, h2⟩, h3⟩
          exact ⟨⟨h1, (DType.beq_iff t u).2 h2⟩, (DType.beqFields_iff xs ys).2 h3⟩

end

instance : DecidableEq DType := fun a b => decidable_of_iff _ (DType.beq_iff a b)

/-- Typed literal field values produced by getFieldValue.  Float values keep
the literal text: their IEEE semantics is outside the scope of this model.
Date values carry the day number, DateTime64 values the microsecond count. -/
inductive Field where
  | str (s : String)
  | int (i : Int)
  | float (raw : String)
  | dateDays (d : Int)
  | dateTime (micros : Int)
deriving DecidableEq, Repr

/-- Decimal digits of n, most significant first, as produced by toString on
an unsigned integer (always at least one digit). -/
def decDigits (n : Nat) : List Char :=
  if _h : n < 10 then [Nat.digitChar n]
  else decDigits (n / 10) ++ [Nat.digitChar (n % 10)]
decreasing_by exact Nat.div_lt_self (by omega) (by omega)

/-- Number of decimal digits of a version number. -/
def digitsCount (n : Nat) : Nat := (decDigits n).length

/-- Decimal rendering of an unsigned integer, modelling toString(size_t). -/
def natToString (n : Nat) : String := ⟨decDigits n⟩

/-- Version number rendered zero-padded to 20 digits, as in withPadding. -/
def withPadding (version : Nat) : String :=
  ⟨List.replicate (20 - (decDigits version).length) '0'⟩ ++ natToString version

/-- Name of the delta log file for a version: the padded version number
followed by the metadata file suffix ".json". -/
def logFileName (version : Nat) : String := withPadding version ++ ".json"

/-- Whitespace characters skipped by skipWhitespaceIfAny
(space, tab, newline, carriage return, form feed, vertical tab). -/
def isWSChar (c : Char) : Bool :=
  c = ' ' || c = '\t' || c = '\n' || c = '\r' || c = '\x0c' || c = '\x0b'

/-- Greedy decimal digit accumulator: consumes leading digits, accumulating
their value onto acc, and returns the value with the unconsumed rest. -/
def readDigitsAux (acc : Nat) : List Char → Nat × List Char
  | [] => (acc, [])
  | c :: cs =>
    if c.isDigit then readDigitsAux (acc * 10 + (c.toNat - 48)) cs else (acc, c :: cs)

/-- Modelled from the spec: readIntText (IO/ReadHelpers.h, not under src/) on
an unsigned integer reads a non-empty run of decimal digits and fails on an
empty buffer or a non-digit first character; the failure is mapped to the
BadArguments kind. -/
def readNat (cs : List Char) : Except Err (Nat × List Char) :=
  match cs with
  | [] => .error .badArguments
  | c :: _ => if c.isDigit then .ok (readDigitsAux 0 cs) else .error .badArguments

/-- Modelled from the spec: tryReadIntText (IO/ReadHelpers.h, not under src/)
reads a run of decimal digits when the first character is a digit and
otherwise reports failure, leaving the output variable untouched. -/
def tryReadNat (cs : List Char) : Option (Nat × List Char) :=
  match cs with
  | [] => none
  | c :: _ => if c.isDigit then some (readDigitsAux 0 cs) else none

/-- Body of the decimal(p,s) branch of getSimpleTypeByName, applied to the
characters strictly between "decimal(" and the closing parenthesis:
readIntText for the precision, skipWhitespaceIfAny, assertChar for the comma,
skipWhitespaceIfAny, then tryReadIntText for the scale.  The scale variable
is declared uninitialized in the source; when the non-fatal scale parse does
not fire, the value left in it is unspecified and is modelled by the
ambient junk parameter. -/
def parseDecimalInner (junk : Nat) (inner : List Char) : Except Err DType := do
  let (precision, rest1) ← readNat inner
  let rest2 := rest1.dropWhile isWSChar
  match rest2 with
  | ',' :: rest3 =>
    let rest4 := rest3.dropWhile isWSChar
    let scale := match tryReadNat rest4 with
      | some (s, _) => s
      | none => junk
    .ok (.decimal precision scale)
  | _ => .error .badArguments

/-- Mapping of primitive Delta type names to internal types, as in
getSimpleTypeByName.  The junk parameter models the uninitialized scale
variable of the decimal branch. -/
def getSimpleTypeByName (junk : Nat) (type_name : String) : Except Err DType :=
  if type_name = "string" || type_name = "binary" then .ok .str
  else if type_name = "long" then .ok .int64
  else if type_name = "integer" then .ok .int32
  else if type_name = "short" then .ok .int16
  else if type_name = "byte" then .ok .int8
  else if type_name = "float" then .ok .float32
  else if type_name = "double" then .ok .float64
  else if type_name = "boolean" then .ok .boolType
  else if type_name = "date" then .ok .date32
  else if type_name = "timestamp" then .ok (.dateTime64 6)
  else if "decimal(".toList.isPrefixOf type_name.toList
      && [')'].isSuffixOf type_name.toList then
    parseDecimalInner junk ((type_name.toList.drop 8).dropLast)
  else .error .badArguments

/-- Wrapping of a type into its nullable container; a nullable type is not
wrapped twice, as in makeNullable. -/
def makeNullable : DType → DType
  | .nullable t => .nullable t
  | t => .nullable t

/-- Parsed JSON type descriptors, as read from schemaString: either a
primitive name, or a nested struct, array or map object.  A struct field
carries its name, its type and its required flag (used as the nullability
of the child, as in getComplexTypeFromObject). -/
inductive TypeDesc where
  | prim (name : String)
  | strct (fields : List (String × TypeDesc × Bool))
  | array (elementType : TypeDesc) (containsNull : Bool)
  | map (keyType valueType : TypeDesc) (containsNull : Bool)

mutual

/-- Resolution of a type descriptor into an internal type, as in
getFieldType: a string name goes through getSimpleTypeByName and is wrapped
in nullable when the enclosing context marks it nullable; an object goes
through the complex-type resolution. -/
def resolveType (junk : Nat) : TypeDesc → Bool → Except Err DType
  | .prim name, is_nullable => do
    let data_type ← getSimpleTypeByName junk name
    .ok (if is_nullable then makeNullable data_type else data_type)
  | .strct fields, _ => do
    let elems ← resolveStructFields junk fields
    .ok (.tuple elems)
  | .array elementType containsNull, _ => do
    let element ← resolveType junk elementType containsNull
    .ok (.arr element)
  | .map keyType valueType containsNull, _ => do
    let key ← resolveType junk keyType false
    let value ← resolveType junk valueType containsNull
    .ok (.tmap key value)

/-- Resolution of the fields of a struct descriptor: each child type is
resolved with its required flag passed as the nullability, without negation,
exactly as the source does. -/
def resolveStructFields (junk : Nat) :
    List (String × TypeDesc × Bool) → Except Err (List (String × DType))
  | [] => .ok []
  | (name, type, required) :: rest => do
    let t ← resolveType junk type required
    let ts ← resolveStructFields junk rest
    .ok ((name, t) :: ts)

end

/-- Top-level field of a metaData schemaString: logical name, type
descriptor, nullable flag, and the optional
delta.columnMapping.physicalName metadata entry. -/
structure MetaField where
  name : String
  type : TypeDesc
  nullable : Bool
  physicalName : Option String

/-- Resolution of a whole metaData schema into the list of
(physical name, resolved type) pairs, as in the field loop of
processMetadataFile: the physical name is the columnMapping metadata entry
when present, the logical name otherwise. -/
def resolveSchema (junk : Nat) :
    List MetaField → Except Err (List (String × DType))
  | [] => .ok []
  | f :: rest => do
    let t ← resolveType junk f.type f.nullable
    let ts ← resolveSchema junk rest
    .ok ((f.physicalName.getD f.name, t) :: ts)

/-- Modelled from the spec: parse<T> for integer types (IO/ReadHelpers.h, not
under src/) parses a decimal integer literal, with an optional leading minus
sign for signed types, and fails on an empty or non-numeric literal; the
whole literal must be consumed.  Overflow wrapping of the machine integer is
not modelled: the value is kept unbounded. -/
def parseIntText (signed : Bool) (value : String) : Except Err Int :=
  match value.toList with
  | '-' :: cs =>
    if signed then
      match readNat cs with
      | .ok (n, []) => .ok (-(n : Int))
      | _ => .error .badArguments
    else .error .badArguments
  | cs =>
    match readNat cs with
    | .ok (n, []) => .ok (n : Int)
    | _ => .error .badArguments

/-- Modelled from the spec: day count of a civil date relative to the epoch
1970-01-01, as computed by LocalDate::getExtenedDayNum (base/LocalDate.h, not
under src/). -/
def daysFromCivil (y : Int) (m d : Nat) : Int :=
  let yAdj : Int := if m ≤ 2 then y - 1 else y
  let era : Int := (if 0 ≤ yAdj then yAdj else yAdj - 399) / 400
  let yoe : Int := yAdj - era * 400
  let mp : Nat := (m + 9) % 12
  let doy : Nat := (153 * mp + 2) / 5 + d - 1
  let doe : Int := yoe * 365 + yoe / 4 - yoe / 100 + (doy : Int)
  era * 146097 + doe - 719468

/-- Modelled from the spec: LocalDate (base/LocalDate.h, not under src/)
parses an ISO date literal of the exact shape YYYY-MM-DD. -/
def parseISODate (cs : List Char) : Except Err (Nat × Nat × Nat) :=
  match cs with
  | [y1, y2, y3, y4, '-', m1, m2, '-', d1, d2] =>
    if y1.isDigit && y2.isDigit && y3.isDigit && y4.isDigit
        && m1.isDigit && m2.isDigit && d1.isDigit && d2.isDigit then
      .ok (((y1.toNat - 48) * 1000 + (y2.toNat - 48) * 100
              + (y3.toNat - 48) * 10 + (y4.toNat - 48)),
           ((m1.toNat - 48) * 10 + (m2.toNat - 48)),
           ((d1.toNat - 48) * 10 + (d2.toNat - 48)))
    else .error .badArguments
  | _ => .error .badArguments

/-- Microsecond count of a fractional-second digit list at scale 6: up to six
digits are significant, shorter runs are scaled up. -/
def fracMicros (ds : List Char) : Nat :=
  (readDigitsAux 0 (ds.take 6)).1 * 10 ^ (6 - (ds.take 6).length)

/-- Modelled from the spec: readDateTime64Text (IO/ReadHelpers.h, not under
src/) parses a datetime literal YYYY-MM-DD hh:mm:ss with an optional
fractional part, at microsecond precision; the time-zone shift applied by the
engine is not modelled. -/
def parseDateTime64 (cs : List Char) : Except Err Int :=
  match cs.take 10, cs.drop 10 with
  | date, ' ' :: h1 :: h2 :: ':' :: n1 :: n2 :: ':' :: s1 :: s2 :: rest =>
    match parseISODate date with
    | .error e => .error e
    | .ok (y, m, d) =>
      if h1.isDigit && h2.isDigit && n1.isDigit && n2.isDigit
          && s1.isDigit && s2.isDigit then
        let secs : Nat := ((h1.toNat - 48) * 10 + (h2.toNat - 48)) * 3600
          + ((n1.toNat - 48) * 10 + (n2.toNat - 48)) * 60
          + ((s1.toNat - 48) * 10 + (s2.toNat - 48))
        let frac : Nat := match rest with
          | '.' :: ds => fracMicros (ds.takeWhile Char.isDigit)
          | _ => 0
        .ok (daysFromCivil (y : Int) m d * 86400000000 + (secs * 1000000 + frac : Nat))
      else .error .badArguments
  | _, _ => .error .badArguments

/-- Exponent part of a floating-point literal, after the e: an optional
sign and a non-empty digit run. -/
def floatExpOk (r : List Char) : Bool :=
  let r1 := match r with
    | '+' :: rr => rr
    | '-' :: rr => rr
    | rr => rr
  !r1.isEmpty && r1.all Char.isDigit

/-- Shape check of a floating-point decimal literal: an optional sign, then
an integer part and an optional fractional part with at least one digit
between them, then an optional exponent with a non-empty digit run; the
whole literal must be consumed. -/
def floatTextOk (cs : List Char) : Bool :=
  let cs1 := match cs with
    | '+' :: rest => rest
    | '-' :: rest => rest
    | rest => rest
  let intPart := cs1.takeWhile Char.isDigit
  let rest1 := cs1.dropWhile Char.isDigit
  let fracPart := match rest1 with
    | '.' :: r => r.takeWhile Char.isDigit
    | _ => []
  let rest2 := match rest1 with
    | '.' :: r => r.dropWhile Char.isDigit
    | r => r
  if intPart.length + fracPart.length = 0 then false
  else
    match rest2 with
    | [] => true
    | 'e' :: r => floatExpOk r
    | 'E' :: r => floatExpOk r
    | _ => false

/-- Modelled from the spec: parse<Float32> and parse<Float64>
(IO/ReadHelpers.h, not under src/) parse a floating-point value from
decimal text and throw on an unparseable literal, mapped to the
BadArguments kind.  The numeric IEEE value is outside the scope of this
model: an accepted literal is kept as its text. -/
def parseFloatText (value : String) : Except Err Field :=
  if floatTextOk value.toList then .ok (.float value) else .error .badArguments

/-- Conversion of a raw partition literal to a typed value, as in
getFieldValue: the nullable wrapper is stripped for the dispatch, strings
pass through, integer types parse from decimal text (the engine inspects
boolean columns as their UInt8 storage type, so boolean literals go through
the unsigned integer parse), float literals are parsed and kept as text,
date and timestamp literals are parsed; every other type, in particular
decimal, falls through to the BadArguments failure. -/
def getFieldValueBy (value : String) : DType → Except Err Field
  | .str => .ok (.str value)
  | .int8 => (parseIntText true value).map .int
  | .boolType => (parseIntText false value).map .int
  | .int16 => (parseIntText true value).map .int
  | .int32 => (parseIntText true value).map .int
  | .int64 => (parseIntText true value).map .int
  | .float32 => parseFloatText value
  | .float64 => parseFloatText value
  | .date32 => do
    let (y, m, d) ← parseISODate value.toList
    .ok (.dateDays (daysFromCivil (y : Int) m d))
  | .dateTime64 _ => (parseDateTime64 value.toList).map .dateTime
  | _ => .error .badArguments

/-- Entry point of the conversion: the check type is the nested type for a
nullable column and the column type itself otherwise, exactly as the
check_type local of the source. -/
def getFieldValue (value : String) (data_type : DType) : Except Err Field :=
  match data_type with
  | .nullable nested => getFieldValueBy value nested
  | t => getFieldValueBy value t

/-- Modelled from std::filesystem::path append (operator/): an absolute
second operand replaces the first, an empty root contributes nothing, and
otherwise a single separator joins the two parts. -/
def fsAppend (root p : String) : String :=
  match p.data with
  | '/' :: _ => p
  | _ =>
    match root.data with
    | [] => p
    | rs => if rs.getLast? = some '/' then root ++ p else root ++ "/" ++ p

/-- Basename of a slash-separated path, as fs::path(path).filename(): the
characters after the last separator (the dot special cases of
std::filesystem do not arise here). -/
def fileBasename (path : String) : String :=
  ⟨(path.data.reverse.takeWhile (fun c => c ≠ '/')).reverse⟩

/-- State accumulated by processMetadataFiles across metadata files: the
active file set (std::set<String> result_files), the current schema
(NamesAndTypesList) and the per-file partition columns
(DataLakePartitionColumns, a map from file basename to the ordered list of
(name-and-type, value) pairs). -/
structure BuilderState where
  files : Finset String
  schema : List (String × DType)
  partitionColumns : List (String × List ((String × DType) × Field))
deriving DecidableEq

/-- Initial builder state: empty file set, empty schema, no partitions. -/
def initialState : BuilderState := ⟨∅, [], []⟩

/-- Lookup of a column by name in the current schema, as
NamesAndTypesList::tryGetByName (first pair whose name matches). -/
def lookupSchema (schema : List (String × DType)) (name : String) :
    Option (String × DType) :=
  schema.find? (fun nt => nt.1 == name)

/-- Typed partition entries computed from the partitionValues pairs in
order: a name missing from the schema fails with the LogicalError kind, and
each present name contributes its (name-and-type, value) pair. -/
def pvEntries (schema : List (String × DType)) :
    List (String × String) → Except Err (List ((String × DType) × Field))
  | [] => .ok []
  | q :: rest =>
    match lookupSchema schema q.1 with
    | none => .error .logicalError
    | some name_and_type => do
      let field ← getFieldValue q.2 name_and_type.2
      let tail ← pvEntries schema rest
      .ok ((name_and_type, field) :: tail)

/-- Application of an add action, as the add branch of processMetadataFile:
the root-prefixed path is inserted into the active set; when the file
basename has no prior partition record and the partitionValues object is
non-empty, the typed partition entries are computed and recorded for this
basename. -/
def applyAdd (root : String) (st : BuilderState) (path : String)
    (partitionValues : List (String × String)) : Except Err BuilderState :=
  let files := insert (fsAppend root path) st.files
  let filename := fileBasename path
  match st.partitionColumns.lookup filename with
  | some _ => .ok { st with files := files }
  | none =>
    if partitionValues.isEmpty then .ok { st with files := files }
    else do
      let entries ← pvEntries st.schema partitionValues
      let pc := st.partitionColumns ++ [(filename, entries)]
      .ok { st with files := files, partitionColumns := pc }

/-- Application of a metaData action, as the metaData branch of
processMetadataFile: the schemaString fields are resolved and projected to
physical names; an empty builder schema adopts the result, a differing
builder schema fails with the NotImplemented kind. -/
def applyMetaData (junk : Nat) (st : BuilderState) (fields : List MetaField) :
    Except Err BuilderState := do
  let current_schema ← resolveSchema junk fields
  if st.schema = [] then .ok { st with schema := current_schema }
  else if st.schema ≠ current_schema then .error .notImplemented
  else .ok st

/-- Payload of an add key: the relative path and the partitionValues pairs
in iteration order. -/
structure AddPayload where
  path : String
  partitionValues : List (String × String)

/-- One decoded JSON object of a log file, keeping only the recognized
top-level action keys (a missing key is none). -/
structure LogObject where
  add : Option AddPayload
  remove : Option String
  metaData : Option (List MetaField)

/-- Application of one decoded object, with the key dispatch of
processMetadataFile: the add key is checked first and, only when it is
absent, the remove key (they sit in an if / else-if chain); the metaData
key is checked independently afterwards. -/
def applyObject (junk : Nat) (root : String) (st : BuilderState)
    (o : LogObject) : Except Err BuilderState := do
  let st1 ←
    match o.add with
    | some a => applyAdd root st a.path a.partitionValues
    | none =>
      match o.remove with
      | some path => .ok { st with files := st.files.erase (fsAppend root path) }
      | none => .ok st
  match o.metaData with
  | some fields => applyMetaData junk st1 fields
  | none => .ok st1

/-- Application of all decoded objects of one log file in order, as the read
loop of processMetadataFile. -/
def processFileObjects (junk : Nat) (root : String) (st : BuilderState)
    (objects : List LogObject) : Except Err BuilderState :=
  objects.foldlM (applyObject junk root) st

/-- An action in the sense of the specification: a decoded object carrying a
single recognized key. -/
inductive Action where
  | add (path : String) (partitionValues : List (String × String))
  | remove (path : String)
  | metaData (fields : List MetaField)

/-- Single-key object carrying one action. -/
def Action.toObject : Action → LogObject
  | .add path pv => ⟨some ⟨path, pv⟩, none, none⟩
  | .remove path => ⟨none, some path, none⟩
  | .metaData fields => ⟨none, none, some fields⟩

/-- Application of a list of single-key action objects in order. -/
def processActions (junk : Nat) (root : String) (st : BuilderState)
    (actions : List Action) : Except Err BuilderState :=
  processFileObjects junk root st (actions.map Action.toObject)

/-- Insertion of the root-prefixed checkpoint paths into the active set, as
the row loop of getCheckpointIfExists: an empty path is skipped, and a path
already present in the set fails with the IncorrectData kind (the code
inspects the inserted flag of std::set::insert). -/
def checkpointAddPaths (root : String) (st : Finset String) :
    List String → Except Err (Finset String)
  | [] => .ok st
  | filename :: rest =>
    if filename = "" then checkpointAddPaths root st rest
    else if fsAppend root filename ∈ st then .error .incorrectData
    else checkpointAddPaths root (insert (fsAppend root filename) st) rest

/-- Version scan after a checkpoint, as the while loop of
processMetadataFiles: starting from the checkpoint version, the next version
is existence-checked; a missing file ends the scan, an existing one is
processed and the scan continues.  The fuel argument bounds the number of
iterations of the model; the returned list collects the processed versions
in order. -/
def scanLoop (junk : Nat) (ex : Nat → Bool) (content : Nat → List LogObject)
    (root : String) :
    Nat → BuilderState → Nat → Option (Except Err (BuilderState × List Nat))
  | _, _, 0 => none
  | version, st, fuel + 1 =>
    if ex (version + 1) then
      match processFileObjects junk root st (content (version + 1)) with
      | .ok st1 =>
        match scanLoop junk ex content root (version + 1) st1 fuel with
        | some (.ok (stF, processed)) => some (.ok (stF, (version + 1) :: processed))
        | other => other
      | .error e => some (.error e)
    else some (.ok (st, []))

/-- Output of processMetadataFiles: the accumulated schema, the active file
set, and the partition-column mapping. -/
structure DeltaLakeMetadata where
  schema : List (String × DType)
  data_files : Finset String
  partition_columns : List (String × List ((String × DType) × Field))
deriving DecidableEq

/-- Snapshot construction along the no-checkpoint branch of
processMetadataFiles: every listed log file is processed in order from the
empty initial state and the final state is packaged. -/
def buildNoCheckpoint (junk : Nat) (root : String)
    (files : List (List LogObject)) : Except Err DeltaLakeMetadata := do
  let st ← files.foldlM (fun s objects => processFileObjects junk root s objects)
    initialState
  .ok ⟨st.schema, st.files, st.partitionColumns⟩

/-! Helper lemmas shared by the claim theorems. -/

theorem except_bind_ok {ε α β : Type} {x : Except ε α} {f : α → Except ε β}
    {b : β} (h : (x >>= f) = .ok b) : ∃ a, x = .ok a ∧ f a = .ok b := by
  cases x with
  | error e => simp [Bind.bind, Except.bind] at h
  | ok a => exact ⟨a, rfl, by simpa [Bind.bind, Except.bind] using h⟩

theorem except_bind_pure_ok {ε α : Type} (x : Except ε α) :
    (x >>= fun a => (Except.ok a : Except ε α)) = x := by
  cases x <;> rfl

theorem applyAdd_ok_files {root : String} {st : BuilderState} {path : String}
    {pv : List (String × String)} {st1 : BuilderState}
    (h : applyAdd root st path pv = .ok st1) :
    st1.files = insert (fsAppend root path) st.files := by
  simp only [applyAdd] at h
  split at h
  · cases h
    rfl
  · split at h
    · cases h
      rfl
    · obtain ⟨es, _, h2⟩ := except_bind_ok h
      cases h2
      rfl

theorem applyObject_single_add {junk : Nat} {root : String} {st : BuilderState}
    {path : String} {pv : List (String × String)} {st1 : BuilderState}
    (h : applyObject junk root st (Action.add path pv).toObject = .ok st1) :
    applyAdd root st path pv = .ok st1 := by
  simp only [applyObject, Action.toObject] at h
  rwa [except_bind_pure_ok] at h

/-- Claim C6: a Remove action whose root-prefixed path is not in the active
set leaves the builder state unchanged (removal of an absent path is a
no-op, and it touches nothing else). -/
theorem claim6_remove_absent_noop (junk : Nat) (root : String)
    (st : BuilderState) (p : String) (h : fsAppend root p ∉ st.files) :
    applyObject junk root st (Action.remove p).toObject = .ok st := by
  simp [applyObject, Action.toObject, Bind.bind, Except.bind,
    Finset.erase_eq_of_not_mem h]

/-- Witness for C6 at a concrete input. -/
theorem claim6_remove_absent_noop_witness :
    applyObject 0 "/t" initialState (Action.remove "a").toObject
      = .ok initialState :=
  claim6_remove_absent_noop 0 "/t" initialState "a" (by decide)

/-- Claim C7: whenever the sequence Add(p), Remove(p), Add(p) applies
successfully, the final active set contains the root-prefixed p (a later
Add after a Remove reinstates the file). -/
theorem claim7_reinstatement (junk : Nat) (root : String) (st : BuilderState)
    (p : String) (pv1 pv2 : List (String × String)) (stF : BuilderState)
    (h : processActions junk root st [.add p pv1, .remove p, .add p pv2]
      = .ok stF) :
    fsAppend root p ∈ stF.files := by
  simp only [processActions, processFileObjects, List.map, List.foldlM] at h
  obtain ⟨s1, _, h1⟩ := except_bind_ok h
  obtain ⟨s2, _, h2⟩ := except_bind_ok h1
  obtain ⟨s3, h3, h4⟩ := except_bind_ok h2
  have hfin : s3 = stF := by
    simpa [pure, Except.pure] using h4
  subst hfin
  rw [applyAdd_ok_files (applyObject_single_add h3)]
  exact Finset.mem_insert_self _ _

/-- Witness for C7 at a concrete input. -/
theorem claim7_reinstatement_witness :
    fsAppend "/t" "a" ∈
      (⟨{"/t/a"}, [], []⟩ : BuilderState).files :=
  claim7_reinstatement 0 "/t" initialState "a" [] [] ⟨{"/t/a"}, [], []⟩
    (by decide)

/-- Claim C10: a Remove action changes only the active file set (the schema
and the partition-column mapping are untouched), and consequently a
snapshot can retain a partition record for a basename whose file is no
longer in data_files, as the concrete one-file log with an add, its
partition values, and a remove shows. -/
theorem claim10_remove_frame (junk : Nat) (root : String) (st : BuilderState)
    (p : String) :
    (∃ st1, applyObject junk root st (Action.remove p).toObject = .ok st1 ∧
      st1.schema = st.schema ∧ st1.partitionColumns = st.partitionColumns ∧
      st1.files = st.files.erase (fsAppend root p)) ∧
    (∃ md, buildNoCheckpoint 0 "/t"
        [[⟨none, none, some [⟨"x", .prim "integer", false, none⟩]⟩,
          ⟨some ⟨"a.parquet", [("x", "7")]⟩, none, none⟩,
          ⟨none, some "a.parquet", none⟩]] = .ok md ∧
      md.partition_columns.lookup "a.parquet" ≠ none ∧
      fsAppend "/t" "a.parquet" ∉ md.data_files) := by
  constructor
  · exact ⟨{ st with files := st.files.erase (fsAppend root p) },
      rfl, rfl, rfl, rfl⟩
  · exact ⟨⟨[("x", .int32)], ∅, [("a.parquet", [(("x", .int32), .int 7)])]⟩,
      by decide, by decide, by decide⟩

/-- Claim C1 (amended): the add and metaData keys of one object each produce
an applied action and combine freely, while add and remove are mutually
exclusive: an object carrying both applies only the add, and remove is
applied exactly when add is absent. -/
theorem claim1_action_keys (junk : Nat) (root : String) (st : BuilderState)
    (o : LogObject) (a : AddPayload) (r : String) :
    (o.add = some a → o.remove = some r →
      applyObject junk root st o = applyObject junk root st { o with remove := none }) ∧
    (o.add = some a →
      applyObject junk root st o = applyAdd root st a.path a.partitionValues >>=
        fun st1 => match o.metaData with
          | some fields => applyMetaData junk st1 fields
          | none => .ok st1) ∧
    (o.add = none → o.remove = some r →
      applyObject junk root st o =
        (match o.metaData with
          | some fields => applyMetaData junk
              { st with files := st.files.erase (fsAppend root r) } fields
          | none => .ok { st with files := st.files.erase (fsAppend root r) })) := by
  refine ⟨?_, ?_, ?_⟩
  · intro ha _
    simp [applyObject, ha]
  · intro ha
    simp [applyObject, ha]
  · intro ha hr
    simp [applyObject, ha, hr, Bind.bind, Except.bind]

/-- Witness for C1 at a concrete input: the remove key of an object that
also carries an add key has no effect. -/
theorem claim1_action_keys_witness :
    applyObject 0 "/t" initialState ⟨some ⟨"a", []⟩, some "b", none⟩
      = applyObject 0 "/t" initialState ⟨some ⟨"a", []⟩, none, none⟩ :=
  (claim1_action_keys 0 "/t" initialState
    ⟨some ⟨"a", []⟩, some "b", none⟩ ⟨"a", []⟩ "b").1 rfl rfl

/-- Counterexample to C1 as stated: for the object carrying both an add of
"a" and a remove of "b", processing from a state whose active set holds
"/t/b" keeps "/t/b" in the set: the remove key was not applied. -/
theorem claim1_counterexample :
    applyObject 0 "/t" ⟨{"/t/b"}, [], []⟩ ⟨some ⟨"a", []⟩, some "b", none⟩
      = .ok ⟨{"/t/a", "/t/b"}, [], []⟩ ∧
    "/t/b" ∈ ({"/t/a", "/t/b"} : Finset String) := by
  constructor <;> decide

/-- Claim C5: the checkpoint row loop skips empty paths, inserts each
non-empty root-prefixed path once, and fails with the IncorrectData kind
exactly when some emitted path is already present (either in the incoming
set or emitted twice by the checkpoint). -/
theorem claim5_checkpoint_rows (root : String) (s : Finset String)
    (rows : List String) :
    (((rows.filter (fun f => f ≠ "")).map (fsAppend root)).Nodup ∧
        (∀ x ∈ (rows.filter (fun f => f ≠ "")).map (fsAppend root), x ∉ s) →
      checkpointAddPaths root s rows
        = .ok (s ∪ ((rows.filter (fun f => f ≠ "")).map (fsAppend root)).toFinset)) ∧
    (¬(((rows.filter (fun f => f ≠ "")).map (fsAppend root)).Nodup ∧
        (∀ x ∈ (rows.filter (fun f => f ≠ "")).map (fsAppend root), x ∉ s)) →
      checkpointAddPaths root s rows = .error .incorrectData) := by
  induction rows generalizing s with
  | nil =>
    refine ⟨fun _ => ?_, fun hn => absurd ⟨by simp, by simp⟩ hn⟩
    simp [checkpointAddPaths]
  | cons f rest ih =>
    by_cases hf : f = ""
    · subst hf
      simpa [checkpointAddPaths] using ih s
    · have hfil : List.filter (fun g => decide (g ≠ "")) (f :: rest)
          = f :: List.filter (fun g => decide (g ≠ "")) rest := by
        simp [hf]
      have hstep : checkpointAddPaths root s (f :: rest)
          = if fsAppend root f ∈ s then .error .incorrectData
            else checkpointAddPaths root (insert (fsAppend root f) s) rest := by
        simp [checkpointAddPaths, hf]
      by_cases hx : fsAppend root f ∈ s
      · refine ⟨?_, ?_⟩
        · rintro ⟨-, hmem⟩
          refine absurd hx (hmem (fsAppend root f) ?_)
          rw [hfil]
          simp
        · intro _
          rw [hstep, if_pos hx]
      · refine ⟨?_, ?_⟩
        · rintro ⟨hnd, hmem⟩
          rw [hfil, List.map_cons, List.nodup_cons] at hnd
          rw [hfil, List.map_cons] at hmem
          have hmem2 : ∀ y ∈ (List.filter (fun g => decide (g ≠ "")) rest).map
              (fsAppend root), y ∉ insert (fsAppend root f) s := by
            intro y hy
            simp only [Finset.mem_insert, not_or]
            exact ⟨fun he => hnd.1 (he ▸ hy), hmem y (List.mem_cons_of_mem _ hy)⟩
          have hres := (ih (insert (fsAppend root f) s)).1 ⟨hnd.2, hmem2⟩
          rw [hstep, if_neg hx, hres, hfil, List.map_cons, List.toFinset_cons,
            Finset.insert_union, Finset.union_insert]
        · intro hn
          by_cases hrec : ((List.filter (fun g => decide (g ≠ "")) rest).map
                (fsAppend root)).Nodup
              ∧ ∀ y ∈ (List.filter (fun g => decide (g ≠ "")) rest).map
                (fsAppend root), y ∉ insert (fsAppend root f) s
          · exfalso
            apply hn
            obtain ⟨hnd2, hmem2⟩ := hrec
            rw [hfil, List.map_cons]
            refine ⟨List.nodup_cons.2
              ⟨fun hin => hmem2 _ hin (Finset.mem_insert_self _ _), hnd2⟩, ?_⟩
            intro y hy
            rcases List.mem_cons.1 hy with rfl | hy2
            · exact hx
            · exact fun hys => hmem2 y hy2 (Finset.mem_insert_of_mem hys)
          · rw [hstep, if_neg hx]
            exact (ih (insert (fsAppend root f) s)).2 hrec

/-- Witness for C5 at concrete inputs: one run with an empty row in the
middle succeeding, and one run with a duplicated path failing. -/
theorem claim5_checkpoint_rows_witness :
    checkpointAddPaths "/t" ∅ ["a", "", "b"]
      = .ok (∅ ∪ (((["a", "", "b"].filter (fun f => f ≠ "")).map
          (fsAppend "/t")).toFinset)) ∧
    checkpointAddPaths "/t" ∅ ["a", "a"] = .error .incorrectData :=
  ⟨(claim5_checkpoint_rows "/t" ∅ ["a", "", "b"]).1 (by decide),
   (claim5_checkpoint_rows "/t" ∅ ["a", "a"]).2 (by decide)⟩

theorem parseIntText_error {signed : Bool} {v : String} {e : Err}
    (h : parseIntText signed v = .error e) : e = .badArguments := by
  unfold parseIntText at h
  repeat' split at h
  all_goals first
    | (cases h; rfl)
    | simp at h

theorem parseISODate_error {cs : List Char} {e : Err}
    (h : parseISODate cs = .error e) : e = .badArguments := by
  unfold parseISODate at h
  repeat' split at h
  all_goals first
    | (cases h; rfl)
    | simp at h

theorem parseDateTime64_error {cs : List Char} {e : Err}
    (h : parseDateTime64 cs = .error e) : e = .badArguments := by
  unfold parseDateTime64 at h
  repeat' split at h
  all_goals first
    | (cases h; rfl)
    | simp at h
    | skip
  rename_i he
  exact h ▸ parseISODate_error he

theorem getFieldValueBy_not_logicalError (v : String) (ct : DType) :
    getFieldValueBy v ct ≠ .error .logicalError := by
  intro h
  cases ct
  all_goals
    first
    | (simp only [getFieldValueBy, parseFloatText] at h
       split at h <;> simp at h)
    | (simp only [getFieldValueBy] at h
       rcases hp : parseIntText true v with e | n
       · rw [hp] at h
         simp only [Except.map] at h
         cases h
         exact absurd (parseIntText_error hp) (by decide)
       · rw [hp] at h
         simp [Except.map] at h)
    | (simp only [getFieldValueBy] at h
       rcases hp : parseIntText false v with e | n
       · rw [hp] at h
         simp only [Except.map] at h
         cases h
         exact absurd (parseIntText_error hp) (by decide)
       · rw [hp] at h
         simp [Except.map] at h)
    | (simp only [getFieldValueBy] at h
       rcases hp : parseISODate v.toList with e | ymd
       · rw [hp] at h
         simp only [Bind.bind, Except.bind] at h
         cases h
         exact absurd (parseISODate_error hp) (by decide)
       · rw [hp] at h
         simp [Bind.bind, Except.bind] at h)
    | (simp only [getFieldValueBy] at h
       rcases hp : parseDateTime64 v.toList with e | m
       · rw [hp] at h
         simp only [Except.map] at h
         cases h
         exact absurd (parseDateTime64_error hp) (by decide)
       · rw [hp] at h
         simp [Except.map] at h)
    | simp [getFieldValueBy] at h

theorem getFieldValue_not_logicalError (v : String) (t : DType) :
    getFieldValue v t ≠ .error .logicalError := by
  unfold getFieldValue
  split <;> exact getFieldValueBy_not_logicalError v _

theorem pvEntries_first_missing (schema : List (String × DType)) :
    ∀ (pre : List (String × String)) (p0 : String × String)
      (rest : List (String × String)),
      (∀ q ∈ pre, ∃ nt f, lookupSchema schema q.1 = some nt ∧
        getFieldValue q.2 nt.2 = .ok f) →
      lookupSchema schema p0.1 = none →
      pvEntries schema (pre ++ p0 :: rest) = .error .logicalError := by
  intro pre
  induction pre with
  | nil =>
    intro p0 rest _ hnone
    simp [pvEntries, hnone]
  | cons q qs ih =>
    intro p0 rest hpre hnone
    obtain ⟨nt, f, hq1, hq2⟩ := hpre q (by simp)
    have htail := ih p0 rest (fun r hr => hpre r (by simp [hr])) hnone
    simp [pvEntries, hq1, hq2, htail, Bind.bind, Except.bind]

theorem pvEntries_logicalError_inv (schema : List (String × DType)) :
    ∀ pv : List (String × String),
      pvEntries schema pv = .error .logicalError →
      ∃ q ∈ pv, lookupSchema schema q.1 = none := by
  intro pv
  induction pv with
  | nil => intro h; simp [pvEntries] at h
  | cons q qs ih =>
    intro h
    rcases hl : lookupSchema schema q.1 with _ | nt
    · exact ⟨q, by simp, hl⟩
    · rcases hg : getFieldValue q.2 nt.2 with e | f
      · rw [pvEntries, hl] at h
        simp only [hg, Bind.bind, Except.bind] at h
        cases h
        exact absurd hg (getFieldValue_not_logicalError _ _)
      · rw [pvEntries, hl] at h
        simp only [hg, Bind.bind, Except.bind] at h
        rcases hq : pvEntries schema qs with e2 | tail
        · rw [hq] at h
          cases h
          obtain ⟨r, hr1, hr2⟩ := ih hq
          exact ⟨r, by simp [hr1], hr2⟩
        · rw [hq] at h
          simp at h

/-- Claim C9 (amended): when an Add is applied and the basename has a prior
partition record or the partitionValues object is empty, the partition
mapping is unchanged; when the basename is fresh and the partitionValues
are non-empty and all entries convert, the typed entries are appended; the
conversion fails with the LogicalError kind when a name is absent from the
schema and every earlier pair converts successfully, and every LogicalError
failure is caused by such an absent name (an earlier pair whose value fails
to convert aborts with a different kind instead). -/
theorem claim9_partition_values (root : String) (st : BuilderState)
    (path : String) (pv : List (String × String))
    (schema : List (String × DType)) (pre : List (String × String))
    (p0 : String × String) (rest : List (String × String))
    (es : List ((String × DType) × Field)) :
    (st.partitionColumns.lookup (fileBasename path) ≠ none ∨ pv = [] →
      applyAdd root st path pv
        = .ok { st with files := insert (fsAppend root path) st.files }) ∧
    (st.partitionColumns.lookup (fileBasename path) = none → pv ≠ [] →
      pvEntries st.schema pv = .ok es →
      applyAdd root st path pv
        = .ok { st with files := insert (fsAppend root path) st.files, partitionColumns := st.partitionColumns ++ [(fileBasename path, es)] }) ∧
    ((∀ q ∈ pre, ∃ nt f, lookupSchema schema q.1 = some nt ∧
        getFieldValue q.2 nt.2 = .ok f) →
      lookupSchema schema p0.1 = none →
      pvEntries schema (pre ++ p0 :: rest) = .error .logicalError) ∧
    (pvEntries schema pv = .error .logicalError →
      ∃ q ∈ pv, lookupSchema schema q.1 = none) := by
  refine ⟨?_, ?_, pvEntries_first_missing schema pre p0 rest,
    pvEntries_logicalError_inv schema pv⟩
  · intro hor
    rcases hor with hlk | hpv
    · rcases hl : st.partitionColumns.lookup (fileBasename path) with _ | v
      · exact absurd hl hlk
      · simp [applyAdd, hl]
    · subst hpv
      rcases hl : st.partitionColumns.lookup (fileBasename path) with _ | v <;>
        simp [applyAdd, hl]
  · intro hlk hpv hok
    obtain ⟨q, qs, rfl⟩ := List.exists_cons_of_ne_nil hpv
    simp [applyAdd, hlk, hok, Bind.bind, Except.bind]

/-- Witness for C9 at concrete inputs: a fresh basename with one converting
partition value records the typed entry, and a schema missing the second
name fails with LogicalError. -/
theorem claim9_partition_values_witness :
    applyAdd "/t" ⟨∅, [("x", .int32)], []⟩ "f.parquet" [("x", "7")]
      = .ok ⟨{fsAppend "/t" "f.parquet"}, [("x", .int32)],
          [("f.parquet", [(("x", .int32), .int 7)])]⟩ ∧
    pvEntries [("a", .str)] ([("a", "v")] ++ ("b", "w") :: [])
      = .error .logicalError :=
  ⟨(claim9_partition_values "/t" ⟨∅, [("x", .int32)], []⟩ "f.parquet"
      [("x", "7")] [] [] ("", "") [] [(("x", .int32), .int 7)]).2.1
      (by decide) (by decide) (by decide),
   (claim9_partition_values "/t" initialState "" [] [("a", .str)]
      [("a", "v")] ("b", "w") [] []).2.2.1
      (by
        rintro q hq
        rcases List.mem_singleton.1 hq with rfl
        exact ⟨("a", DType.str), Field.str "v", by decide, by decide⟩)
      (by decide)⟩

/-- Counterexample to C9 as stated: with schema [("a", decimal 10 0)] and
partition values [("a","1"), ("b","2")], the name "b" is absent from the
schema, yet the Add application fails with the BadArguments kind (the
decimal-typed value of the earlier pair fails to convert first), not with
LogicalError; likewise with schema [("x", float32)] and an unparseable
float literal for "x" before the absent name "y". -/
theorem claim9_counterexample :
    applyAdd "/t" ⟨∅, [("a", .decimal 10 0)], []⟩ "f.parquet"
        [("a", "1"), ("b", "2")] = .error .badArguments ∧
    lookupSchema [("a", DType.decimal 10 0)] "b" = none ∧
    applyAdd "/t" ⟨∅, [("x", .float32)], []⟩ "f.parquet"
        [("x", "garbage"), ("y", "1")] = .error .badArguments ∧
    lookupSchema [("x", DType.float32)] "y" = none := by
  refine ⟨by decide, by decide, by decide, by decide⟩

/-- Resolution of a whole list of metaData schemas, in order: the observed
schemas of a log after physical-name projection. -/
def resolveSchemas (junk : Nat) :
    List (List MetaField) → Except Err (List (List (String × DType)))
  | [] => .ok []
  | fields :: rest => do
    let s ← resolveSchema junk fields
    let ss ← resolveSchemas junk rest
    .ok (s :: ss)

/-- Schema accumulation of processMetadataFile, isolated on the observed
schema values: an empty accumulator adopts the next schema, a differing
non-empty accumulator fails with the NotImplemented kind. -/
def schemaFold (acc : List (String × DType)) :
    List (List (String × DType)) → Except Err (List (String × DType))
  | [] => .ok acc
  | s :: rest =>
    if acc = [] then schemaFold s rest
    else if acc ≠ s then .error .notImplemented
    else schemaFold acc rest

theorem applyMetaData_of_resolve {junk : Nat} {st : BuilderState}
    {fields : List MetaField} {s : List (String × DType)}
    (h : resolveSchema junk fields = .ok s) :
    applyMetaData junk st fields =
      if st.schema = [] then .ok { st with schema := s }
      else if st.schema ≠ s then .error .notImplemented
      else .ok st := by
  simp [applyMetaData, h, Bind.bind, Except.bind]

theorem processMeta_eq_schemaFold {junk : Nat} {root : String} :
    ∀ (fss : List (List MetaField)) (ss : List (List (String × DType)))
      (st : BuilderState), resolveSchemas junk fss = .ok ss →
      processActions junk root st (fss.map .metaData) =
        (schemaFold st.schema ss).map (fun sch => { st with schema := sch }) := by
  intro fss
  induction fss with
  | nil =>
    intro ss st h
    cases h
    simp [processActions, processFileObjects, schemaFold, Except.map, pure,
      Except.pure]
  | cons fields rest ih =>
    intro ss st h
    rcases hs : resolveSchema junk fields with e | s
    · rw [resolveSchemas, hs] at h
      simp [Bind.bind, Except.bind] at h
    · rw [resolveSchemas, hs] at h
      simp only [Bind.bind, Except.bind] at h
      rcases hrest : resolveSchemas junk rest with e | ss2
      · rw [hrest] at h
        simp at h
      · rw [hrest] at h
        simp only [pure, Except.pure] at h
        cases h
        have hobj : applyObject junk root st (Action.metaData fields).toObject
            = applyMetaData junk st fields := by
          simp [applyObject, Action.toObject, Bind.bind, Except.bind]
        have hstep : processActions junk root st
            ((fields :: rest).map .metaData)
            = applyMetaData junk st fields >>= fun st1 =>
                processActions junk root st1 (rest.map .metaData) := by
          simp only [processActions, List.map, processFileObjects, List.foldlM,
            hobj]
        rw [hstep, applyMetaData_of_resolve hs]
        by_cases h0 : st.schema = []
        · rw [if_pos h0, h0]
          have := ih ss2 { st with schema := s } hrest
          simp only [Bind.bind, Except.bind, this]
          simp [schemaFold]
        · rw [if_neg h0]
          by_cases heq : st.schema = s
          · rw [if_neg (by simp [heq])]
            have := ih ss2 st hrest
            simp only [Bind.bind, Except.bind, this]
            rw [schemaFold, if_neg h0, if_neg (by simp [heq]), heq]
          · rw [if_pos heq]
            simp only [Bind.bind, Except.bind]
            rw [schemaFold, if_neg h0, if_pos (by simp [heq]), Except.map]

theorem schemaFold_all_eq {acc : List (String × DType)} :
    ∀ ss : List (List (String × DType)), (∀ t ∈ ss, t = acc) →
      schemaFold acc ss = .ok acc := by
  intro ss
  induction ss generalizing acc with
  | nil => intro _; rfl
  | cons s rest ih =>
    intro hall
    have hs : s = acc := hall s (by simp)
    subst hs
    by_cases h0 : s = []
    · rw [schemaFold, if_pos h0]
      exact ih fun t ht => hall t (by simp [ht])
    · rw [schemaFold, if_neg h0, if_neg (by simp)]
      exact ih fun t ht => hall t (by simp [ht])

theorem schemaFold_conflict_nonempty {acc : List (String × DType)}
    (hacc : acc ≠ []) :
    ∀ ss : List (List (String × DType)),
      (∃ t ∈ ss, t ≠ acc) → schemaFold acc ss = .error .notImplemented := by
  intro ss
  induction ss with
  | nil => rintro ⟨t, ht, -⟩; simp at ht
  | cons s rest ih =>
    rintro ⟨t, ht, hne⟩
    by_cases hs : s = acc
    · subst hs
      rw [schemaFold, if_neg hacc, if_neg (by simp)]
      rcases List.mem_cons.1 ht with rfl | ht2
      · exact absurd rfl hne
      · exact ih ⟨t, ht2, hne⟩
    · rw [schemaFold, if_neg hacc, if_pos (fun h => hs (Eq.symm h))]

theorem schemaFold_conflict {a b : List (String × DType)}
    (hab : a ≠ b) (ha : a ≠ []) :
    ∀ (pre mid post : List (List (String × DType))),
      schemaFold [] (pre ++ a :: mid ++ b :: post) = .error .notImplemented := by
  intro pre
  induction pre with
  | nil =>
    intro mid post
    rw [List.nil_append]
    simp only [schemaFold, if_pos rfl]
    exact schemaFold_conflict_nonempty ha _ ⟨b, by simp, fun h => hab h.symm⟩
  | cons p pre2 ih =>
    intro mid post
    rw [List.cons_append]
    simp only [schemaFold, if_pos rfl]
    by_cases hp : p = []
    · subst hp
      exact ih mid post
    · by_cases hpa : a = p
      · subst hpa
        exact schemaFold_conflict_nonempty hp _
          ⟨b, by simp, fun h => hab h.symm⟩
      · exact schemaFold_conflict_nonempty hp _ ⟨a, by simp, hpa⟩

/-- Claim C3 (amended): processing a log of metaData actions from the empty
initial state fails with the NotImplemented kind whenever the observed
schemas contain two distinct entries of which the earlier one is non-empty;
when all observed schemas are equal, the parse succeeds and adopts the
first observed schema.  (As the counterexample shows, a leading empty
schema followed by a different schema is accepted, so the claim's bare
"two distinct schemas" condition needs the non-emptiness qualification.) -/
theorem claim3_schema_conflict (junk : Nat) (root : String)
    (fss : List (List MetaField)) (ss : List (List (String × DType)))
    (a b : List (String × DType)) (pre mid post : List (List (String × DType)))
    (h : resolveSchemas junk fss = .ok ss) :
    (ss = pre ++ a :: mid ++ b :: post → a ≠ b → a ≠ [] →
      processActions junk root initialState (fss.map .metaData)
        = .error .notImplemented) ∧
    (∀ s0 rest, ss = s0 :: rest → (∀ t ∈ ss, t = s0) →
      processActions junk root initialState (fss.map .metaData)
        = .ok { initialState with schema := s0 }) := by
  constructor
  · intro hss hab ha
    rw [processMeta_eq_schemaFold fss ss initialState h, hss]
    rw [show initialState.schema = [] from rfl]
    rw [schemaFold_conflict hab ha pre mid post]
    rfl
  · intro s0 rest hss hall
    rw [processMeta_eq_schemaFold fss ss initialState h, hss]
    rw [show initialState.schema = [] from rfl]
    rw [schemaFold, if_pos rfl]
    rw [schemaFold_all_eq rest
      (fun t ht => hall t (by simp [hss, ht]))]
    rfl

/-- Witness for C3 at concrete inputs: two distinct non-empty schemas fail
with NotImplemented, and a repeated schema is adopted. -/
theorem claim3_schema_conflict_witness :
    processActions 0 "/t" initialState
        [.metaData [⟨"x", .prim "long", false, none⟩],
         .metaData [⟨"x", .prim "string", false, none⟩]]
      = .error .notImplemented ∧
    processActions 0 "/t" initialState
        [.metaData [⟨"x", .prim "long", false, none⟩],
         .metaData [⟨"x", .prim "long", false, none⟩]]
      = .ok { initialState with schema := [("x", DType.int64)] } :=
  ⟨(claim3_schema_conflict 0 "/t"
      [[⟨"x", .prim "long", false, none⟩], [⟨"x", .prim "string", false, none⟩]]
      [[("x", DType.int64)], [("x", DType.str)]]
      [("x", DType.int64)] [("x", DType.str)] [] [] [] (by decide)).1
      rfl (by decide) (by decide),
   (claim3_schema_conflict 0 "/t"
      [[⟨"x", .prim "long", false, none⟩], [⟨"x", .prim "long", false, none⟩]]
      [[("x", DType.int64)], [("x", DType.int64)]]
      [] [] [] [] [] (by decide)).2
      [("x", DType.int64)] [[("x", DType.int64)]] rfl (by decide)⟩

/-- Counterexample to C3 as stated: a log whose observed schemas are the
empty schema followed by a non-empty one carries two distinct schemas, yet
the parse succeeds and adopts the second schema instead of failing. -/
theorem claim3_counterexample :
    resolveSchemas 0 [[], [⟨"x", .prim "integer", false, none⟩]]
      = .ok [[], [("x", DType.int32)]] ∧
    processActions 0 "/t" initialState
        [.metaData [], .metaData [⟨"x", .prim "integer", false, none⟩]]
      = .ok ⟨∅, [("x", DType.int32)], []⟩ ∧
    ([] : List (String × DType)) ≠ [("x", DType.int32)] := by
  refine ⟨by decide, by decide, by decide⟩

theorem scanLoop_ok_characterize {junk : Nat} {ex : Nat → Bool}
    {content : Nat → List LogObject} {root : String} :
    ∀ (fuel V : Nat) (st stF : BuilderState) (processed : List Nat),
      scanLoop junk ex content root V st fuel = some (.ok (stF, processed)) →
      processed = List.range' (V + 1) processed.length ∧
      (∀ u ∈ processed, ex u = true) ∧
      ex (V + 1 + processed.length) = false := by
  intro fuel
  induction fuel with
  | zero => intro V st stF processed h; simp [scanLoop] at h
  | succ fuel ih =>
    intro V st stF processed h
    rw [scanLoop] at h
    by_cases hex : ex (V + 1)
    · rw [if_pos hex] at h
      rcases hproc : processFileObjects junk root st (content (V + 1)) with e | st1
      · rw [hproc] at h
        simp at h
      · rw [hproc] at h
        dsimp only at h
        rcases hrec : scanLoop junk ex content root (V + 1) st1 fuel with - | res
        · rw [hrec] at h
          simp at h
        · rw [hrec] at h
          rcases res with e | p
          · simp at h
          · rcases p with ⟨st2, l2⟩
            simp only [Option.some.injEq, Except.ok.injEq, Prod.mk.injEq] at h
            obtain ⟨rfl, rfl⟩ := h
            obtain ⟨h1, h2, h3⟩ := ih (V + 1) st1 st2 l2 hrec
            refine ⟨?_, ?_, ?_⟩
            · simp only [List.length_cons]
              rw [List.range'_succ]
              exact congrArg (List.cons (V + 1)) h1
            · intro u hu
              rcases List.mem_cons.1 hu with rfl | hu2
              · exact hex
              · exact h2 u hu2
            · have harith : V + 1 + 1 + l2.length = V + 1 + (l2.length + 1) := by
                omega
              simpa [List.length_cons, harith] using h3
    · rw [if_neg hex] at h
      simp only [Option.some.injEq, Except.ok.injEq, Prod.mk.injEq] at h
      obtain ⟨rfl, rfl⟩ := h
      refine ⟨rfl, by simp, by simpa using hex⟩

/-- Claim C4: whenever the post-checkpoint scan returns successfully, the
processed versions are exactly V+1, V+2, ... in increasing order up to the
first version whose log file is absent: every processed version exists, the
next version after the processed range is the first absent one, every
version strictly between V and the stopping point is processed, and no
version at or below V appears. -/
theorem claim4_monotone_version_scan (junk : Nat) (ex : Nat → Bool)
    (content : Nat → List LogObject) (root : String) (fuel V : Nat)
    (st stF : BuilderState) (processed : List Nat)
    (h : scanLoop junk ex content root V st fuel = some (.ok (stF, processed))) :
    processed = List.range' (V + 1) processed.length ∧
    (∀ u ∈ processed, ex u = true) ∧
    ex (V + 1 + processed.length) = false ∧
    (∀ u, V < u → u < V + 1 + processed.length → u ∈ processed) ∧
    (∀ u ∈ processed, V < u ∧ u < V + 1 + processed.length) := by
  obtain ⟨h1, h2, h3⟩ := scanLoop_ok_characterize fuel V st stF processed h
  refine ⟨h1, h2, h3, ?_, ?_⟩
  · intro u hVu huW
    rw [h1]
    rw [List.mem_range']
    refine ⟨u - (V + 1), ?_, ?_⟩
    · omega
    · omega
  · intro u hu
    rw [h1, List.mem_range'] at hu
    obtain ⟨i, hi, rfl⟩ := hu
    omega

/-- Witness for C4 at a concrete input: versions up to 4 exist, the scan
from checkpoint version 2 processes versions 3 and 4 and stops at 5. -/
theorem claim4_monotone_version_scan_witness :
    [3, 4] = List.range' (2 + 1) [3, 4].length ∧
    (∀ u ∈ [3, 4], (fun v => decide (v ≤ 4)) u = true) ∧
    (fun v => decide (v ≤ 4)) (2 + 1 + [3, 4].length) = false ∧
    (∀ u, 2 < u → u < 2 + 1 + [3, 4].length → u ∈ [3, 4]) ∧
    (∀ u ∈ [3, 4], 2 < u ∧ u < 2 + 1 + [3, 4].length) :=
  claim4_monotone_version_scan 0 (fun v => decide (v ≤ 4)) (fun _ => [])
    "/t" 10 2 initialState initialState [3, 4] (by decide)


theorem decDigits_lt {n : Nat} (h : n < 10) :
    decDigits n = [Nat.digitChar n] := by
  rw [decDigits]
  simp [h]

theorem decDigits_ge {n : Nat} (h : 10 ≤ n) :
    decDigits n = decDigits (n / 10) ++ [Nat.digitChar (n % 10)] := by
  rw [decDigits]
  simp [Nat.not_lt.2 h]

theorem digitChar_isDigit {d : Nat} (h : d < 10) :
    (Nat.digitChar d).isDigit = true := by
  have hall : ∀ d < 10, (Nat.digitChar d).isDigit = true := by decide
  exact hall d h

theorem digitChar_toNat {d : Nat} (h : d < 10) :
    (Nat.digitChar d).toNat - 48 = d := by
  have hall : ∀ d < 10, (Nat.digitChar d).toNat - 48 = d := by decide
  exact hall d h

theorem decDigits_ne_nil (n : Nat) : decDigits n ≠ [] := by
  by_cases h : n < 10
  · rw [decDigits_lt h]
    simp
  · rw [decDigits_ge (Nat.not_lt.1 h)]
    simp

theorem decDigits_all_digit : ∀ n : Nat, ∀ c ∈ decDigits n, c.isDigit = true := by
  intro n
  induction n using Nat.strong_induction_on with
  | _ n ih =>
    by_cases h : n < 10
    · rw [decDigits_lt h]
      intro c hc
      rcases List.mem_singleton.1 hc with rfl
      exact digitChar_isDigit h
    · rw [decDigits_ge (Nat.not_lt.1 h)]
      intro c hc
      rcases List.mem_append.1 hc with hc1 | hc2
      · exact ih (n / 10) (Nat.div_lt_self (by omega) (by omega)) c hc1
      · rcases List.mem_singleton.1 hc2 with rfl
        exact digitChar_isDigit (Nat.mod_lt n (by omega))

theorem decDigits_exists_cons (n : Nat) :
    ∃ c cs, decDigits n = c :: cs ∧ c.isDigit = true := by
  rcases hd : decDigits n with - | ⟨c, cs⟩
  · exact absurd hd (decDigits_ne_nil n)
  · exact ⟨c, cs, rfl, decDigits_all_digit n c (by rw [hd]; simp)⟩

theorem readDigitsAux_digits_append :
    ∀ (n : Nat) (rest : List Char) (acc : Nat),
      readDigitsAux acc (decDigits n ++ rest)
      = readDigitsAux (acc * 10 ^ (decDigits n).length + n) rest := by
  intro n
  induction n using Nat.strong_induction_on with
  | _ n ih =>
    intro rest acc
    by_cases h : n < 10
    · rw [decDigits_lt h]
      simp only [List.singleton_append, List.length_cons, List.length_nil,
        readDigitsAux, digitChar_isDigit h, if_true, digitChar_toNat h,
        pow_one, Nat.zero_add, pow_zero]
      norm_num
    · have h10 : 10 ≤ n := Nat.not_lt.1 h
      rw [decDigits_ge h10, List.append_assoc, List.singleton_append]
      rw [ih (n / 10) (Nat.div_lt_self (by omega) (by omega)) _ acc]
      have hlt : n % 10 < 10 := Nat.mod_lt n (by omega)
      have hdig := digitChar_isDigit hlt
      simp only [readDigitsAux, hdig, if_true, digitChar_toNat hlt]
      have harith : (acc * 10 ^ (decDigits (n / 10)).length + n / 10) * 10
          + n % 10 = acc * 10 ^ ((decDigits (n / 10)).length + 1) + n := by
        calc (acc * 10 ^ (decDigits (n / 10)).length + n / 10) * 10 + n % 10
            = acc * (10 ^ (decDigits (n / 10)).length * 10)
              + (n / 10 * 10 + n % 10) := by ring
          _ = acc * 10 ^ ((decDigits (n / 10)).length + 1) + n := by
              rw [← pow_succ]
              omega
      rw [harith]
      simp [List.length_append]

theorem readDigitsAux_stop (acc : Nat) (rest : List Char)
    (h : ∀ c, rest.head? = some c → c.isDigit = false) :
    readDigitsAux acc rest = (acc, rest) := by
  cases rest with
  | nil => rfl
  | cons c cs => simp [readDigitsAux, h c rfl]

theorem readNat_decDigits (p : Nat) (tail : List Char)
    (htail : ∀ c, tail.head? = some c → c.isDigit = false) :
    readNat (decDigits p ++ tail) = .ok (p, tail) := by
  obtain ⟨c, cs, hcons, hdig⟩ := decDigits_exists_cons p
  have haux : readDigitsAux 0 (decDigits p ++ tail) = (p, tail) := by
    rw [readDigitsAux_digits_append, readDigitsAux_stop _ _ htail]
    simp
  rw [hcons, List.cons_append, readNat]
  rw [if_pos hdig, ← List.cons_append, ← hcons, haux]

theorem tryReadNat_decDigits (s : Nat) : tryReadNat (decDigits s) = some (s, []) := by
  obtain ⟨c, cs, hcons, hdig⟩ := decDigits_exists_cons s
  have haux : readDigitsAux 0 (decDigits s) = (s, []) := by
    have h0 := readDigitsAux_digits_append s [] 0
    rw [List.append_nil] at h0
    rw [h0]
    simp [readDigitsAux]
  rw [hcons, tryReadNat]
  rw [if_pos hdig, ← hcons, haux]

theorem isDigit_not_ws {c : Char} (h : c.isDigit = true) : isWSChar c = false := by
  cases hx : isWSChar c
  · rfl
  · exfalso
    have hor : ((((c = ' ' ∨ c = '\t') ∨ c = '\n') ∨ c = '\x0d')
        ∨ c = '\x0c') ∨ c = '\x0b' := by
      simpa [isWSChar] using hx
    rcases hor with ((((rfl | rfl) | rfl) | rfl) | rfl) | rfl <;> simp at h

theorem ws_not_digit {c : Char} (h : isWSChar c = true) : c.isDigit = false := by
  cases hd : c.isDigit
  · rfl
  · rw [isDigit_not_ws hd] at h
    simp at h

theorem dropWhile_append_all {p : Char → Bool} :
    ∀ (l rest : List Char), (∀ c ∈ l, p c = true) →
      List.dropWhile p (l ++ rest) = List.dropWhile p rest := by
  intro l rest
  induction l with
  | nil => intro _; rfl
  | cons c cs ih =>
    intro h
    rw [List.cons_append, List.dropWhile_cons, if_pos (h c (by simp))]
    exact ih fun d hd => h d (by simp [hd])

theorem dropWhile_all_nil {p : Char → Bool} (l : List Char)
    (h : ∀ c ∈ l, p c = true) : List.dropWhile p l = [] := by
  have h0 := dropWhile_append_all l [] h
  rwa [List.append_nil] at h0

theorem ws_comma_head_nondigit (ws1 tail : List Char)
    (h1 : ∀ c ∈ ws1, isWSChar c = true) :
    ∀ c, (ws1 ++ ',' :: tail).head? = some c → c.isDigit = false := by
  intro c hc
  cases ws1 with
  | nil =>
    simp only [List.nil_append, List.head?_cons, Option.some.injEq] at hc
    subst hc
    decide
  | cons w ws =>
    simp only [List.cons_append, List.head?_cons, Option.some.injEq] at hc
    subst hc
    exact ws_not_digit (h1 w (by simp))

theorem dropWhile_decDigits (s : Nat) :
    List.dropWhile isWSChar (decDigits s) = decDigits s := by
  obtain ⟨c, cs, hcons, hdig⟩ := decDigits_exists_cons s
  rw [hcons, List.dropWhile_cons, if_neg (by simp [isDigit_not_ws hdig])]

theorem getSimple_decimal (junk : Nat) (inner : List Char) :
    getSimpleTypeByName junk
        ⟨'d' :: 'e' :: 'c' :: 'i' :: 'm' :: 'a' :: 'l' :: '(' :: (inner ++ [')'])⟩
      = parseDecimalInner junk inner := by
  have h1 : getSimpleTypeByName junk
        ⟨'d' :: 'e' :: 'c' :: 'i' :: 'm' :: 'a' :: 'l' :: '(' :: (inner ++ [')'])⟩
      = if ("decimal(".toList.isPrefixOf
            ('d' :: 'e' :: 'c' :: 'i' :: 'm' :: 'a' :: 'l' :: '(' :: (inner ++ [')']))
          && [')'].isSuffixOf
            ('d' :: 'e' :: 'c' :: 'i' :: 'm' :: 'a' :: 'l' :: '(' :: (inner ++ [')']))) = true
        then parseDecimalInner junk ((inner ++ [')']).dropLast)
        else .error .badArguments := rfl
  rw [h1, if_pos ?hcond, List.dropLast_concat]
  case hcond =>
    rw [Bool.and_eq_true]
    constructor
    · simp [String.toList, List.isPrefixOf]
    · simp [List.isSuffixOf, List.reverse_append]

/-- Claim C2 (amended): in the decimal(...) branch, the comma is required:
a name decimal(p) with no comma fails with the BadArguments kind instead of
defaulting the scale to zero; a name decimal(p,) with the comma but no scale
digits succeeds, but the scale is the unspecified value left in the
uninitialized variable (the junk parameter), not necessarily zero; and a
name decimal(p,s), with arbitrary whitespace around the comma, yields the
decimal type with precision p and scale s. -/
theorem claim2_decimal_type_name (junk p s : Nat) (ws1 ws2 : List Char)
    (h1 : ∀ c ∈ ws1, isWSChar c = true) (h2 : ∀ c ∈ ws2, isWSChar c = true) :
    getSimpleTypeByName junk
        ⟨'d' :: 'e' :: 'c' :: 'i' :: 'm' :: 'a' :: 'l' :: '(' :: (decDigits p ++ [')'])⟩
      = .error .badArguments ∧
    getSimpleTypeByName junk
        ⟨'d' :: 'e' :: 'c' :: 'i' :: 'm' :: 'a' :: 'l' :: '(' :: 
          ((decDigits p ++ (ws1 ++ ',' :: ws2)) ++ [')'])⟩
      = .ok (.decimal p junk) ∧
    getSimpleTypeByName junk
        ⟨'d' :: 'e' :: 'c' :: 'i' :: 'm' :: 'a' :: 'l' :: '(' :: 
          ((decDigits p ++ (ws1 ++ ',' :: (ws2 ++ decDigits s))) ++ [')'])⟩
      = .ok (.decimal p s) := by
  refine ⟨?_, ?_, ?_⟩
  · rw [getSimple_decimal]
    have hread := readNat_decDigits p [] (by intro c hc; simp at hc)
    rw [List.append_nil] at hread
    simp [parseDecimalInner, hread, Bind.bind, Except.bind, List.dropWhile]
  · rw [getSimple_decimal]
    have hread := readNat_decDigits p (ws1 ++ ',' :: ws2)
      (ws_comma_head_nondigit ws1 ws2 h1)
    have hcomma : List.dropWhile isWSChar (ws1 ++ ',' :: ws2) = ',' :: ws2 := by
      rw [dropWhile_append_all ws1 _ h1, List.dropWhile_cons, if_neg (by decide)]
    simp only [parseDecimalInner, hread, Bind.bind, Except.bind, hcomma]
    rw [dropWhile_all_nil ws2 h2]
    rfl
  · rw [getSimple_decimal]
    have hread := readNat_decDigits p (ws1 ++ ',' :: (ws2 ++ decDigits s))
      (ws_comma_head_nondigit ws1 _ h1)
    have hcomma : List.dropWhile isWSChar (ws1 ++ ',' :: (ws2 ++ decDigits s))
        = ',' :: (ws2 ++ decDigits s) := by
      rw [dropWhile_append_all ws1 _ h1, List.dropWhile_cons, if_neg (by decide)]
    simp only [parseDecimalInner, hread, Bind.bind, Except.bind, hcomma]
    rw [dropWhile_append_all ws2 _ h2, dropWhile_decDigits, tryReadNat_decDigits]

/-- Witness for C2 at concrete inputs p = 5, s = 3 with single spaces as
the whitespace around the comma. -/
theorem claim2_decimal_type_name_witness :
    getSimpleTypeByName 7
        ⟨'d' :: 'e' :: 'c' :: 'i' :: 'm' :: 'a' :: 'l' :: '(' :: (decDigits 5 ++ [')'])⟩
      = .error .badArguments ∧
    getSimpleTypeByName 7
        ⟨'d' :: 'e' :: 'c' :: 'i' :: 'm' :: 'a' :: 'l' :: '(' :: 
          ((decDigits 5 ++ ([' '] ++ ',' :: [' '])) ++ [')'])⟩
      = .ok (.decimal 5 7) ∧
    getSimpleTypeByName 7
        ⟨'d' :: 'e' :: 'c' :: 'i' :: 'm' :: 'a' :: 'l' :: '(' :: 
          ((decDigits 5 ++ ([' '] ++ ',' :: ([' '] ++ decDigits 3))) ++ [')'])⟩
      = .ok (.decimal 5 3) :=
  claim2_decimal_type_name 7 5 3 [' '] [' '] (by decide) (by decide)

/-- Counterexample to C2 as stated: decimal(10) without a comma fails with
BadArguments rather than resolving with scale zero, and decimal(10,) with a
missing scale yields whatever value the uninitialized scale variable held
(7 in this run of the model), not zero. -/
theorem claim2_counterexample :
    getSimpleTypeByName 0 "decimal(10)" = .error .badArguments ∧
    getSimpleTypeByName 7 "decimal(10,)" = .ok (.decimal 10 7) := by
  constructor <;> decide


/-- Fixed-width decimal digits of n, most significant first: digit k-1 down
to digit 0 (proof-layer companion of the zero-padded rendering). -/
def padDigits : Nat → Nat → List Char
  | 0, _ => []
  | k + 1, n => Nat.digitChar (n / 10 ^ k) :: padDigits k (n % 10 ^ k)

theorem padDigits_length : ∀ (k n : Nat), (padDigits k n).length = k := by
  intro k
  induction k with
  | zero => intro n; rfl
  | succ k ih => intro n; simp [padDigits, ih]

theorem padDigits_append : ∀ (k n : Nat), n < 10 ^ (k + 1) →
    padDigits (k + 1) n = padDigits k (n / 10) ++ [Nat.digitChar (n % 10)] := by
  intro k
  induction k with
  | zero =>
    intro n h
    have h10 : n < 10 := by simpa using h
    simp [padDigits, Nat.div_one, Nat.mod_eq_of_lt h10, Nat.mod_one]
  | succ k ih =>
    intro n h
    have hmodlt : n % 10 ^ (k + 1) < 10 ^ (k + 1) :=
      Nat.mod_lt n (Nat.pos_pow_of_pos _ (by omega))
    have h1 : (n % 10 ^ (k + 1)) % 10 = n % 10 :=
      Nat.mod_mod_of_dvd n (dvd_pow_self 10 (Nat.succ_ne_zero k))
    have h2 : (n % 10 ^ (k + 1)) / 10 = n / 10 % 10 ^ k := by
      rw [Nat.div_mod_eq_mod_mul_div, ← pow_succ']
    have h3 : n / 10 / 10 ^ k = n / 10 ^ (k + 1) := by
      rw [Nat.div_div_eq_div_mul, ← pow_succ']
    calc padDigits (k + 2) n
        = Nat.digitChar (n / 10 ^ (k + 1)) :: padDigits (k + 1) (n % 10 ^ (k + 1)) := rfl
      _ = Nat.digitChar (n / 10 ^ (k + 1)) ::
            (padDigits k ((n % 10 ^ (k + 1)) / 10)
              ++ [Nat.digitChar ((n % 10 ^ (k + 1)) % 10)]) := by
          rw [ih _ hmodlt]
      _ = Nat.digitChar (n / 10 / 10 ^ k) ::
            (padDigits k (n / 10 % 10 ^ k) ++ [Nat.digitChar (n % 10)]) := by
          rw [h1, h2, h3]
      _ = padDigits (k + 1) (n / 10) ++ [Nat.digitChar (n % 10)] := rfl

theorem padDigits_small : ∀ (k n : Nat), n < 10 → 1 ≤ k →
    padDigits k n = List.replicate (k - 1) '0' ++ [Nat.digitChar n] := by
  intro k
  induction k with
  | zero => intro n _ h; omega
  | succ k ih =>
    intro n hn _
    by_cases hk : 1 ≤ k
    · have hlt : n < 10 ^ k := lt_of_lt_of_le hn (by
        calc 10 = 10 ^ 1 := (pow_one 10).symm
          _ ≤ 10 ^ k := Nat.pow_le_pow_right (by omega) hk)
      have hdiv : n / 10 ^ k = 0 := Nat.div_eq_of_lt hlt
      have hmod : n % 10 ^ k = n := Nat.mod_eq_of_lt hlt
      rw [show padDigits (k + 1) n
          = Nat.digitChar (n / 10 ^ k) :: padDigits k (n % 10 ^ k) from rfl]
      rw [hdiv, hmod, ih n hn hk]
      rw [show Nat.succ k - 1 = (k - 1) + 1 by omega, List.replicate_succ]
      rfl
    · have hk0 : k = 0 := by omega
      subst hk0
      simp [padDigits, Nat.mod_one, Nat.div_one]

theorem padDigits_decDigits : ∀ (n k : Nat), n < 10 ^ k → 1 ≤ k →
    List.replicate (k - (decDigits n).length) '0' ++ decDigits n
      = padDigits k n := by
  intro n
  induction n using Nat.strong_induction_on with
  | _ n ih =>
    intro k hnk hk
    by_cases h : n < 10
    · rw [decDigits_lt h, padDigits_small k n h hk]
      rfl
    · have h10 : 10 ≤ n := Nat.not_lt.1 h
      obtain ⟨g, rfl⟩ : ∃ g, k = g + 1 := ⟨k - 1, by omega⟩
      have hg1 : 1 ≤ g := by
        by_contra hg
        have hg0 : g = 0 := by omega
        subst hg0
        have : n < 10 := by simpa using hnk
        omega
      have hdivlt : n / 10 < 10 ^ g := by
        rw [Nat.div_lt_iff_lt_mul (by omega)]
        calc n < 10 ^ (g + 1) := hnk
          _ = 10 ^ g * 10 := pow_succ 10 g
      have hihd := ih (n / 10) (Nat.div_lt_self (by omega) (by omega)) g hdivlt hg1
      rw [decDigits_ge h10, padDigits_append g n hnk, ← hihd]
      rw [List.length_append, List.length_cons, List.length_nil]
      rw [show g + 1 - ((decDigits (n / 10)).length + (0 + 1))
          = g - (decDigits (n / 10)).length by omega]
      rw [← List.append_assoc]

theorem digitChar_lt_of_lt {a b : Nat} (ha : a < 10) (hb : b < 10)
    (hab : a < b) : Nat.digitChar a < Nat.digitChar b := by
  have hall : ∀ a < 10, ∀ b < 10, a < b → Nat.digitChar a < Nat.digitChar b := by
    decide
  exact hall a ha b hb hab

theorem padDigits_lex : ∀ (k m n : Nat), m < 10 ^ k → n < 10 ^ k → m < n →
    List.Lex (· < ·) (padDigits k m) (padDigits k n) := by
  intro k
  induction k with
  | zero =>
    intro m n hm hn hmn
    simp only [pow_zero] at hm hn
    omega
  | succ k ih =>
    intro m n hm hn hmn
    have hpow : 0 < 10 ^ k := Nat.pos_pow_of_pos _ (by omega)
    have hma : m / 10 ^ k < 10 := by
      rw [Nat.div_lt_iff_lt_mul hpow]
      calc m < 10 ^ (k + 1) := hm
        _ = 10 ^ k * 10 := pow_succ 10 k
        _ = 10 * 10 ^ k := Nat.mul_comm _ _
    have hnb : n / 10 ^ k < 10 := by
      rw [Nat.div_lt_iff_lt_mul hpow]
      calc n < 10 ^ (k + 1) := hn
        _ = 10 ^ k * 10 := pow_succ 10 k
        _ = 10 * 10 ^ k := Nat.mul_comm _ _
    have hle : m / 10 ^ k ≤ n / 10 ^ k := Nat.div_le_div_right (le_of_lt hmn)
    rcases lt_or_eq_of_le hle with hdlt | hdeq
    · exact List.Lex.rel (digitChar_lt_of_lt hma hnb hdlt)
    · have hmodlt : m % 10 ^ k < n % 10 ^ k := by
        have hm2 := Nat.div_add_mod m (10 ^ k)
        have hn2 := Nat.div_add_mod n (10 ^ k)
        have hsum : 10 ^ k * (m / 10 ^ k) + m % 10 ^ k
            < 10 ^ k * (m / 10 ^ k) + n % 10 ^ k := by
          calc 10 ^ k * (m / 10 ^ k) + m % 10 ^ k = m := hm2
            _ < n := hmn
            _ = 10 ^ k * (n / 10 ^ k) + n % 10 ^ k := hn2.symm
            _ = 10 ^ k * (m / 10 ^ k) + n % 10 ^ k := by rw [hdeq]
        exact Nat.lt_of_add_lt_add_left hsum
      rw [show padDigits (k + 1) m
          = Nat.digitChar (m / 10 ^ k) :: padDigits k (m % 10 ^ k) from rfl]
      rw [show padDigits (k + 1) n
          = Nat.digitChar (n / 10 ^ k) :: padDigits k (n % 10 ^ k) from rfl]
      rw [hdeq]
      exact List.Lex.cons (ih _ _ (Nat.mod_lt m hpow) (Nat.mod_lt n hpow) hmodlt)

theorem lex_append_suffix : ∀ (a b s t : List Char),
    List.Lex (· < ·) a b → a.length = b.length →
    List.Lex (· < ·) (a ++ s) (b ++ t) := by
  intro a b s t h
  induction h with
  | nil => intro hlen; simp at hlen
  | rel hr => intro _; exact List.Lex.rel hr
  | cons h2 ih => intro hlen; exact List.Lex.cons (ih (by simpa using hlen))


theorem decDigits_length_eq (n : Nat) :
    (decDigits n).length = Nat.log 10 n + 1 := by
  induction n using Nat.strong_induction_on with
  | _ n ih =>
    by_cases h : n < 10
    · rw [decDigits_lt h]
      rw [Nat.log_eq_zero_iff.mpr (Or.inl h)]
      rfl
    · have h10 : 10 ≤ n := Nat.not_lt.1 h
      rw [decDigits_ge h10, List.length_append, List.length_cons,
        List.length_nil]
      rw [ih (n / 10) (Nat.div_lt_self (by omega) (by omega))]
      have hpos : 0 < Nat.log 10 n := Nat.log_pos (by omega) h10
      have hdiv := Nat.log_div_base 10 n
      omega

theorem logFileName_toList (v : Nat) :
    (logFileName v).toList
      = (List.replicate (20 - (decDigits v).length) '0' ++ decDigits v)
        ++ ('.' :: 'j' :: 's' :: 'o' :: 'n' :: []) := rfl

theorem logFileName_lt_of_lt {u v : Nat} (hv : v < 10 ^ 20) (huv : u < v) :
    logFileName u < logFileName v := by
  have hu : u < 10 ^ 20 := lt_trans huv hv
  rw [String.lt_iff_toList_lt]
  have hlex : List.Lex (· < ·) (logFileName u).toList (logFileName v).toList := by
    rw [logFileName_toList, logFileName_toList]
    rw [padDigits_decDigits u 20 hu (by omega),
      padDigits_decDigits v 20 hv (by omega)]
    exact lex_append_suffix _ _ _ _ (padDigits_lex 20 u v hu hv huv)
      (by rw [padDigits_length, padDigits_length])
  exact hlex

/-- Claim C8: for every v < 10^20 the log file name is 20 - digits(v) zero
characters, the decimal digits of v, then ".json" (with digits(v) the
decimal digit count, equal to log10(v) + 1), and for u, v < 10^20 the
lexicographic order of the names coincides with the numeric order of the
versions. -/
theorem claim8_padding_and_order (v u : Nat) (hv : v < 10 ^ 20) :
    logFileName v = ⟨List.replicate (20 - digitsCount v) '0' ++ decDigits v
        ++ ('.' :: 'j' :: 's' :: 'o' :: 'n' :: [])⟩ ∧
    digitsCount v = Nat.log 10 v + 1 ∧
    (u < 10 ^ 20 → (u < v ↔ logFileName u < logFileName v)) := by
  refine ⟨?_, decDigits_length_eq v, ?_⟩
  · have h1 : logFileName v
        = ⟨(List.replicate (20 - digitsCount v) '0' ++ decDigits v)
            ++ ('.' :: 'j' :: 's' :: 'o' :: 'n' :: [])⟩ := rfl
    rw [h1, List.append_assoc]
  · intro hu
    constructor
    · exact logFileName_lt_of_lt hv
    · intro hlt
      rcases lt_trichotomy u v with h | h | h
      · exact h
      · subst h
        exact absurd hlt (lt_irrefl _)
      · exact absurd hlt (not_lt_of_lt (logFileName_lt_of_lt hu h))

/-- Witness for C8 at the concrete versions 2 and 3. -/
theorem claim8_padding_and_order_witness :
    logFileName 2 < logFileName 3 :=
  (((claim8_padding_and_order 3 2 (by norm_num)).2.2 (by norm_num)).1
    (by norm_num))


end DeltaLake
